import Mathlib

/-!
Verification of the event-completion payout workflow of the kara-works
backend (route handler `POST /api/events/:id/finish` in `src/routes/event.ts`,
over the relational schema of `supabase/migrations/001_initial_schema.sql`).

The handler and the store rows it touches are shallowly embedded:

* each table row becomes a structure (`EventRow`, `ApplicationRow`,
  `WalletRow`, `WalletTransactionRow`), and the store state is `DB`,
  holding the row lists plus a fresh-id counter for wallet creation;
* every supabase call is one store operation; an oracle
  `fail : StoreOp → Bool` says which operations fail, so the error
  paths of the handler (throw → 500, ignored errors, 404 on a failed
  event lookup) are represented faithfully;
* decimal columns and JS numbers are modelled exactly as rationals; the
  coercion `Number(event.event_salary) || 0` is modelled on the lattice
  of values a nullable decimal column can deliver to JS (`DbVal`);
* the two distinct success bodies the handler produces (the
  zero-eligible body `{message, processed: 0}` and the normal body
  `{message, processedCount, processed: [...]}`) are kept apart in
  `FinishResponse`, with accessors reading the individual JSON fields.
-/

/-- Value of the `event_salary` column as delivered to the JS handler:
`NULL`, an absent field, a numeric value (number or numeric string whose
JS coercion is the rational `q`), or a non-numeric string. -/
inductive DbVal where
  | vNull : DbVal
  | vMissing : DbVal
  | vNum : ℚ → DbVal
  | vBadStr : DbVal
deriving Repr, DecidableEq

/-- JS `Number(x)` on a `DbVal`; `none` stands for `NaN`. -/
def jsNumber : DbVal → Option ℚ
  | .vNull => some 0
  | .vMissing => none
  | .vNum q => some q
  | .vBadStr => none

/-- JS `x || 0` applied to the result of `Number`: `NaN` (and `0` itself)
collapse to `0`. -/
def orZero : Option ℚ → ℚ
  | none => 0
  | some q => q

/-- A row of the `event` table (columns used by the finish handler). -/
structure EventRow where
  event_id : Nat
  event_salary : DbVal
  event_status : String
  updated_at : Nat
deriving Repr, DecidableEq

/-- A row of the `application` table (columns used by the finish handler). -/
structure ApplicationRow where
  application_id : Nat
  event_id : Nat
  user_id : Nat
  application_status : String
  clock_out_qr_data : Option String
deriving Repr, DecidableEq

/-- A row of the `wallet` table. -/
structure WalletRow where
  wallet_id : Nat
  user_id : Nat
  wallet_balance : ℚ
deriving Repr, DecidableEq

/-- A row of the `wallet_transaction` table. -/
structure WalletTransactionRow where
  wallet_id : Nat
  transaction_event_id : Option Nat
  transaction_wd_id : Option Nat
  transaction_amount : ℚ
  transaction_date : Nat
deriving Repr, DecidableEq

/-- The store state: the four tables touched by the workflow, plus the
fresh-id supply used when a wallet row is inserted (modelling
`uuid_generate_v4()` defaults). -/
structure DB where
  events : List EventRow
  applications : List ApplicationRow
  wallets : List WalletRow
  wallet_transactions : List WalletTransactionRow
  nextWalletId : Nat
deriving Repr, DecidableEq

/-- One store operation performed by the finish handler; loop operations
carry the iteration index. -/
inductive StoreOp where
  | selectEvent
  | selectApplications
  | emptyEventUpdate
  | selectWallet : Nat → StoreOp
  | insertWallet : Nat → StoreOp
  | updateWalletBalance : Nat → StoreOp
  | insertTransaction : Nat → StoreOp
  | updateApplication : Nat → StoreOp
  | finalEventUpdate
deriving Repr, DecidableEq

/-- The oracle of a run in which every store operation succeeds. -/
def noFail : StoreOp → Bool := fun _ => false

/-- `select ... from event where event_id = :id single()`. -/
def findEvent (db : DB) (eid : Nat) : Option EventRow :=
  db.events.find? fun e => e.event_id == eid

/-- `select ... from application where event_id = :id and
clock_out_qr_data is not null`: the eligibility set. -/
def eligibleApplications (db : DB) (eid : Nat) : List ApplicationRow :=
  db.applications.filter fun a => a.event_id == eid && a.clock_out_qr_data.isSome

/-- `select ... from wallet where user_id = :u single()`. -/
def findWallet (db : DB) (u : Nat) : Option WalletRow :=
  db.wallets.find? fun w => w.user_id == u

/-- Row lookup in `application` by primary key (observation). -/
def findApp (db : DB) (aid : Nat) : Option ApplicationRow :=
  db.applications.find? fun a => a.application_id == aid

/-- The salary used by the handler: `Number(event.event_salary) || 0`. -/
def eventSalary (e : EventRow) : ℚ :=
  orZero (jsNumber e.event_salary)

/-- `update wallet set wallet_balance = :b where wallet_id = :wid`. -/
def setWalletBalance (db : DB) (wid : Nat) (b : ℚ) : DB :=
  { db with wallets := db.wallets.map fun w =>
      if w.wallet_id == wid then { w with wallet_balance := b } else w }

/-- `update application set application_status = 'finished' where
application_id = :aid`. -/
def setApplicationFinished (db : DB) (aid : Nat) : DB :=
  { db with applications := db.applications.map fun a =>
      if a.application_id == aid then { a with application_status := "finished" } else a }

/-- The event update of the zero-eligible branch: only the status column
is written (`update event set event_status = 'finished'`). -/
def setEventFinishedOnly (db : DB) (eid : Nat) : DB :=
  { db with events := db.events.map fun e =>
      if e.event_id == eid then { e with event_status := "finished" } else e }

/-- The final event update: `update event set event_status = 'finished',
updated_at = :finishedAt where event_id = :id`. -/
def setEventFinishedStamped (db : DB) (eid : Nat) (finishedAt : Nat) : DB :=
  { db with events := db.events.map fun e =>
      if e.event_id == eid then
        { e with event_status := "finished", updated_at := finishedAt }
      else e }

/-- The tail of one loop iteration, after the wallet id and current
balance are known: balance update, transaction insert, application
update.  An `error` result carries the store state at the throw. -/
def creditSteps (fail : StoreOp → Bool) (i : Nat) (eid : Nat) (salary : ℚ)
    (finishedAt : Nat) (db : DB) (walletId : Nat) (currentBalance : ℚ)
    (app : ApplicationRow) : Except DB (DB × (Nat × Nat)) :=
  let newBalance := currentBalance + salary
  if fail (.updateWalletBalance i) then .error db else
  let db1 := setWalletBalance db walletId newBalance
  if fail (.insertTransaction i) then .error db1 else
  let db2 := { db1 with wallet_transactions := db1.wallet_transactions ++
      [{ wallet_id := walletId, transaction_event_id := some eid,
         transaction_wd_id := none, transaction_amount := salary,
         transaction_date := finishedAt }] }
  if fail (.updateApplication i) then .error db2 else
  let db3 := setApplicationFinished db2 app.application_id
  .ok (db3, (app.application_id, app.user_id))

/-- `insert into wallet (user_id, wallet_balance) values (:u, 0)`: a new
row with a freshly generated primary key. -/
def insertWalletRow (db : DB) (u : Nat) : DB :=
  { db with
    wallets := db.wallets ++
      [{ wallet_id := db.nextWalletId, user_id := u, wallet_balance := 0 }],
    nextWalletId := db.nextWalletId + 1 }

/-- One iteration of the credit loop: fetch (or create) the wallet of
the application user, then `creditSteps`.  A failed wallet lookup is
treated by the handler exactly like an absent wallet; the wallet insert
fails when the oracle says so or when the `UNIQUE(user_id)` constraint
of the schema is violated. -/
def creditOne (fail : StoreOp → Bool) (i : Nat) (eid : Nat) (salary : ℚ)
    (finishedAt : Nat) (db : DB) (app : ApplicationRow) :
    Except DB (DB × (Nat × Nat)) :=
  match (if fail (.selectWallet i) then none else findWallet db app.user_id) with
  | some wallet =>
      creditSteps fail i eid salary finishedAt db wallet.wallet_id
        wallet.wallet_balance app
  | none =>
      if fail (.insertWallet i) || (findWallet db app.user_id).isSome then
        .error db
      else
        creditSteps fail i eid salary finishedAt (insertWalletRow db app.user_id)
          db.nextWalletId 0 app

/-- The sequential credit loop over the eligibility set, accumulating
the processed `(application_id, user_id)` pairs. -/
def creditLoop (fail : StoreOp → Bool) (eid : Nat) (salary : ℚ)
    (finishedAt : Nat) : Nat → DB → List ApplicationRow →
    Except DB (DB × List (Nat × Nat))
  | _, db, [] => .ok (db, [])
  | i, db, app :: rest =>
    match creditOne fail i eid salary finishedAt db app with
    | .error dbE => .error dbE
    | .ok (db1, p) =>
      match creditLoop fail eid salary finishedAt (i + 1) db1 rest with
      | .error dbE => .error dbE
      | .ok (db2, ps) => .ok (db2, p :: ps)

/-- The JSON response of the handler.  `emptyFinished` is the
zero-eligible 200 body `{message, processed: 0}`; `finished ps` is the
normal 200 body `{message, processedCount: ps.length, processed: ps}`. -/
inductive FinishResponse where
  | notFound
  | alreadyFinished
  | emptyFinished
  | finished : List (Nat × Nat) → FinishResponse
  | serverError
deriving Repr, DecidableEq

/-- The HTTP status of each response. -/
def responseHttpStatus : FinishResponse → Nat
  | .notFound => 404
  | .alreadyFinished => 400
  | .emptyFinished => 200
  | .finished _ => 200
  | .serverError => 500

/-- The `processedCount` JSON field of each response body
(`none` when the body carries no such field). -/
def responseProcessedCountField : FinishResponse → Option Nat
  | .finished ps => some ps.length
  | _ => none

/-- The `processed` JSON field of each response body: the zero-eligible
body holds the number `0`, the normal body holds the list of pairs. -/
def responseProcessedField : FinishResponse → Option (Nat ⊕ List (Nat × Nat))
  | .emptyFinished => some (Sum.inl 0)
  | .finished ps => some (Sum.inr ps)
  | _ => none

/-- The finish handler, translated step by step from
`router.post(..., '/:id/finish')` in `src/routes/event.ts`. -/
def finishEvent (fail : StoreOp → Bool) (db : DB) (eid : Nat)
    (finishedAt : Nat) : FinishResponse × DB :=
  match (if fail .selectEvent then none else findEvent db eid) with
  | none => (.notFound, db)
  | some event =>
    if event.event_status == "finished" then (.alreadyFinished, db)
    else if fail .selectApplications then (.serverError, db)
    else
      let applications := eligibleApplications db eid
      if applications.isEmpty then
        (.emptyFinished,
          if fail .emptyEventUpdate then db else setEventFinishedOnly db eid)
      else
        let salary := eventSalary event
        match creditLoop fail eid salary finishedAt 0 db applications with
        | .error dbE => (.serverError, dbE)
        | .ok (db1, processed) =>
          if fail .finalEventUpdate then (.serverError, db1)
          else (.finished processed, setEventFinishedStamped db1 eid finishedAt)

/-- The balance the handler would see for user `u`:
`Number(wallet.wallet_balance ?? 0)` with an absent wallet read as `0`. -/
def userBalance (db : DB) (u : Nat) : ℚ :=
  match findWallet db u with
  | none => 0
  | some w => w.wallet_balance

/-- All ledger entries referencing event `eid`. -/
def eventTxs (db : DB) (eid : Nat) : List WalletTransactionRow :=
  db.wallet_transactions.filter fun tx => tx.transaction_event_id == some eid

/-- Sum of the amounts of all ledger entries referencing event `eid`. -/
def eventTxSum (db : DB) (eid : Nat) : ℚ :=
  ((eventTxs db eid).map WalletTransactionRow.transaction_amount).sum

/-- Number of ledger entries referencing event `eid` on wallet `wid`. -/
def eventWalletTxCount (db : DB) (eid wid : Nat) : Nat :=
  ((eventTxs db eid).filter fun tx => tx.wallet_id == wid).length

/-- The ledger entries on the wallet of user `u` (empty when `u` has no
wallet). -/
def walletTxsOf (db : DB) (u : Nat) : List WalletTransactionRow :=
  match findWallet db u with
  | none => []
  | some w => db.wallet_transactions.filter fun tx => tx.wallet_id == w.wallet_id

/-- Schema well-formedness of the wallet table: primary keys distinct,
`UNIQUE(user_id)` holds, and the fresh-id supply is ahead of every
existing id. -/
def WFWallets (db : DB) : Prop :=
  (db.wallets.map WalletRow.wallet_id).Nodup ∧
  (db.wallets.map WalletRow.user_id).Nodup ∧
  ∀ w ∈ db.wallets, w.wallet_id < db.nextWalletId

/-- Schema well-formedness of the application table: primary keys
distinct and `UNIQUE(event_id, user_id)` holds. -/
def WFApplications (db : DB) : Prop :=
  (db.applications.map ApplicationRow.application_id).Nodup ∧
  (db.applications.map fun a => (a.event_id, a.user_id)).Nodup

instance : DecidablePred WFWallets := fun db => by
  unfold WFWallets; infer_instance

instance : DecidablePred WFApplications := fun db => by
  unfold WFApplications; infer_instance

/-- The store state carried by either outcome of a fallible call
(the state at the throw, or the state after success). -/
def resultDB {α : Type} : Except DB (DB × α) → DB
  | .error dbE => dbE
  | .ok (d, _) => d

/-- Postcondition of a successful credit-loop run from `db` to `db2` over
the application list `apps`, producing the processed pairs `ps`. -/
structure LoopPost (db db2 : DB) (eid : Nat) (salary : ℚ) (t : Nat)
    (apps : List ApplicationRow) (ps : List (Nat × Nat)) : Prop where
  processed_eq : ps = apps.map fun a => (a.application_id, a.user_id)
  events_eq : db2.events = db.events
  wf : WFWallets db2
  next_le : db.nextWalletId ≤ db2.nextWalletId
  wallets_frame : ∀ u, u ∉ apps.map ApplicationRow.user_id →
      findWallet db2 u = findWallet db u
  apps_frame : ∀ k, k ∉ apps.map ApplicationRow.application_id →
      findApp db2 k = findApp db k
  per_app : ∀ a ∈ apps, ∃ w, findWallet db2 a.user_id = some w ∧
      w.user_id = a.user_id ∧
      w.wallet_balance = userBalance db a.user_id + salary ∧
      findApp db2 a.application_id = some { a with application_status := "finished" }
  txs : ∃ newTxs, db2.wallet_transactions = db.wallet_transactions ++ newTxs ∧
      newTxs.length = apps.length ∧
      (∀ tx ∈ newTxs, tx.transaction_event_id = some eid ∧
        tx.transaction_wd_id = none ∧ tx.transaction_amount = salary ∧
        tx.transaction_date = t) ∧
      (∀ a ∈ apps, ∃ w, findWallet db2 a.user_id = some w ∧
        (newTxs.filter fun tx => tx.wallet_id == w.wallet_id).length = 1) ∧
      (∀ tx ∈ newTxs, ∃ a, a ∈ apps ∧ ∃ w, findWallet db2 a.user_id = some w ∧
        tx.wallet_id = w.wallet_id)


/-- A concrete event row used to exercise the handler. -/
def sampleEvent : EventRow :=
  { event_id := 1, event_salary := .vNum 500000, event_status := "posted",
    updated_at := 0 }

/-- A clocked-out application of user 100 to event 1. -/
def sampleApp10 : ApplicationRow :=
  { application_id := 10, event_id := 1, user_id := 100,
    application_status := "accepted", clock_out_qr_data := some "qr1" }

/-- An application of user 101 to event 1 without clock-out proof. -/
def sampleApp11 : ApplicationRow :=
  { application_id := 11, event_id := 1, user_id := 101,
    application_status := "accepted", clock_out_qr_data := none }

/-- A clocked-out application of user 102 (who has no wallet) to event 1. -/
def sampleApp12 : ApplicationRow :=
  { application_id := 12, event_id := 1, user_id := 102,
    application_status := "accepted", clock_out_qr_data := some "qr2" }

/-- A concrete store: one posted event, two clocked-out applications
(users 100 and 102), one not clocked out (user 101), one existing wallet
for user 100, an empty ledger. -/
def sampleDB : DB :=
  { events := [sampleEvent],
    applications := [sampleApp10, sampleApp11, sampleApp12],
    wallets := [{ wallet_id := 5, user_id := 100, wallet_balance := 250 }],
    wallet_transactions := [],
    nextWalletId := 6 }

/-- `sampleDB` with the event already finished. -/
def sampleFinishedDB : DB :=
  { sampleDB with events := [{ sampleEvent with event_status := "finished" }] }

/-- `sampleDB` with no clocked-out application at all. -/
def sampleEmptyDB : DB :=
  { sampleDB with applications := [sampleApp11] }

/-- `sampleDB` with a missing salary field on the event. -/
def sampleMissingSalaryDB : DB :=
  { sampleDB with events := [{ sampleEvent with event_salary := .vMissing }] }

/-! ### List and lookup helper lemmas -/

theorem find?_beq_key_of_nodup {α : Type} (key : α → Nat)
    {l : List α} {a : α} (hnd : (l.map key).Nodup) (ha : a ∈ l) :
    l.find? (fun x => key x == key a) = some a := by
  induction l with
  | nil => cases ha
  | cons b tl ih =>
    rw [List.map_cons, List.nodup_cons] at hnd
    rcases List.mem_cons.mp ha with rfl | hat
    · exact List.find?_cons_of_pos _ (by simp)
    · have hne : ¬ ((key b == key a) = true) := by
        simp only [beq_iff_eq]
        intro h
        exact hnd.1 (h ▸ List.mem_map_of_mem key hat)
      have hstep : List.find? (fun x => key x == key a) (b :: tl) =
          List.find? (fun x => key x == key a) tl :=
        List.find?_cons_of_neg tl hne
      rw [hstep]
      exact ih hnd.2 hat

theorem findWallet_user {db : DB} {u : Nat} {w : WalletRow}
    (h : findWallet db u = some w) : w.user_id = u := by
  unfold findWallet at h
  have h2 := List.find?_some h
  exact eq_of_beq h2

theorem findWallet_mem {db : DB} {u : Nat} {w : WalletRow}
    (h : findWallet db u = some w) : w ∈ db.wallets := by
  unfold findWallet at h
  exact List.mem_of_find?_eq_some h

theorem findEvent_id {db : DB} {eid : Nat} {e : EventRow}
    (h : findEvent db eid = some e) : e.event_id = eid := by
  unfold findEvent at h
  have h2 := List.find?_some h
  exact eq_of_beq h2

theorem findWallet_inj {db : DB} (hnd : (db.wallets.map WalletRow.wallet_id).Nodup)
    {u u2 : Nat} {w w2 : WalletRow} (h : findWallet db u = some w)
    (h2 : findWallet db u2 = some w2) (hw : w.wallet_id = w2.wallet_id) : w = w2 :=
  List.inj_on_of_nodup_map hnd (findWallet_mem h) (findWallet_mem h2) hw

theorem findWallet_setWalletBalance (db : DB) (wid : Nat) (b : ℚ) (u : Nat) :
    findWallet (setWalletBalance db wid b) u =
      (findWallet db u).map fun w =>
        if w.wallet_id == wid then { w with wallet_balance := b } else w := by
  have hp : ((fun w : WalletRow => w.user_id == u) ∘ fun w =>
      if w.wallet_id == wid then { w with wallet_balance := b } else w) =
      fun w : WalletRow => w.user_id == u := by
    funext w
    simp only [Function.comp]
    split <;> rfl
  unfold findWallet setWalletBalance
  rw [List.find?_map, hp]

theorem findApp_setApplicationFinished (db : DB) (aid k : Nat) :
    findApp (setApplicationFinished db aid) k =
      (findApp db k).map fun a =>
        if a.application_id == aid then { a with application_status := "finished" } else a := by
  have hp : ((fun a : ApplicationRow => a.application_id == k) ∘ fun a =>
      if a.application_id == aid then { a with application_status := "finished" } else a) =
      fun a : ApplicationRow => a.application_id == k := by
    funext a
    simp only [Function.comp]
    split <;> rfl
  unfold findApp setApplicationFinished
  rw [List.find?_map, hp]

theorem findEvent_setEventFinishedStamped (db : DB) (eid t k : Nat) :
    findEvent (setEventFinishedStamped db eid t) k =
      (findEvent db k).map fun e =>
        if e.event_id == eid then
          { e with event_status := "finished", updated_at := t }
        else e := by
  have hp : ((fun e : EventRow => e.event_id == k) ∘ fun e =>
      if e.event_id == eid then
        { e with event_status := "finished", updated_at := t }
      else e) = fun e : EventRow => e.event_id == k := by
    funext e
    simp only [Function.comp]
    split <;> rfl
  unfold findEvent setEventFinishedStamped
  rw [List.find?_map, hp]

theorem findEvent_setEventFinishedOnly (db : DB) (eid k : Nat) :
    findEvent (setEventFinishedOnly db eid) k =
      (findEvent db k).map fun e =>
        if e.event_id == eid then { e with event_status := "finished" } else e := by
  have hp : ((fun e : EventRow => e.event_id == k) ∘ fun e =>
      if e.event_id == eid then { e with event_status := "finished" } else e) =
      fun e : EventRow => e.event_id == k := by
    funext e
    simp only [Function.comp]
    split <;> rfl
  unfold findEvent setEventFinishedOnly
  rw [List.find?_map, hp]

theorem eligible_sub (db : DB) (eid : Nat) :
    ∀ a ∈ eligibleApplications db eid, a ∈ db.applications := by
  intro a ha
  exact List.mem_of_mem_filter ha

theorem eligible_event {db : DB} {eid : Nat} {a : ApplicationRow}
    (ha : a ∈ eligibleApplications db eid) : a.event_id = eid := by
  have := (List.mem_filter.mp ha).2
  have h2 : (a.event_id == eid) = true := by
    cases h3 : (a.event_id == eid) with
    | true => rfl
    | false => rw [h3] at this; simp at this
  exact eq_of_beq h2

theorem eligible_clockout {db : DB} {eid : Nat} {a : ApplicationRow}
    (ha : a ∈ eligibleApplications db eid) : a.clock_out_qr_data.isSome := by
  have := (List.mem_filter.mp ha).2
  cases h3 : a.clock_out_qr_data.isSome with
  | true => rfl
  | false => rw [Bool.and_eq_true] at this; rw [h3] at this; exact absurd this.2 (by simp)

theorem eligible_ids_nodup (db : DB) (eid : Nat)
    (h : (db.applications.map ApplicationRow.application_id).Nodup) :
    ((eligibleApplications db eid).map ApplicationRow.application_id).Nodup :=
  h.sublist ((List.filter_sublist _).map _)

theorem eligible_users_nodup (db : DB) (eid : Nat)
    (h : (db.applications.map fun a => (a.event_id, a.user_id)).Nodup) :
    ((eligibleApplications db eid).map ApplicationRow.user_id).Nodup := by
  have hsub : ((eligibleApplications db eid).map fun a => (a.event_id, a.user_id)).Nodup :=
    h.sublist ((List.filter_sublist _).map _)
  have hinj : ∀ x ∈ (eligibleApplications db eid).map fun a => (a.event_id, a.user_id),
      ∀ y ∈ (eligibleApplications db eid).map fun a => (a.event_id, a.user_id),
      x.2 = y.2 → x = y := by
    intro x hx y hy hxy
    rcases List.mem_map.mp hx with ⟨a, ha, rfl⟩
    rcases List.mem_map.mp hy with ⟨b, hb, rfl⟩
    have h1 := eligible_event ha
    have h2 := eligible_event hb
    simp only at hxy ⊢
    rw [h1, h2, hxy]
  have := hsub.map_on hinj
  rw [List.map_map] at this
  exact this

theorem findApp_of_mem {db : DB} {a : ApplicationRow}
    (h : (db.applications.map ApplicationRow.application_id).Nodup)
    (ha : a ∈ db.applications) : findApp db a.application_id = some a :=
  find?_beq_key_of_nodup ApplicationRow.application_id h ha

/-! ### Effect of one loop iteration (no store failures) -/

theorem balUpd_id (wid : Nat) (b : ℚ) (w : WalletRow) :
    (if w.wallet_id == wid then { w with wallet_balance := b } else w).wallet_id
      = w.wallet_id := by
  split <;> rfl

theorem balUpd_user (wid : Nat) (b : ℚ) (w : WalletRow) :
    (if w.wallet_id == wid then { w with wallet_balance := b } else w).user_id
      = w.user_id := by
  split <;> rfl

theorem WFWallets_ext {db1 db2 : DB} (hw : db1.wallets = db2.wallets)
    (hn : db1.nextWalletId = db2.nextWalletId) (h : WFWallets db2) :
    WFWallets db1 := by
  unfold WFWallets at h ⊢
  rw [hw, hn]
  exact h

theorem WFWallets_setWalletBalance (db : DB) (wid : Nat) (b : ℚ)
    (h : WFWallets db) : WFWallets (setWalletBalance db wid b) := by
  obtain ⟨h1, h2, h3⟩ := h
  unfold WFWallets setWalletBalance
  refine ⟨?_, ?_, ?_⟩
  · rw [List.map_map]
    have : (WalletRow.wallet_id ∘ fun w =>
        if w.wallet_id == wid then { w with wallet_balance := b } else w) =
        WalletRow.wallet_id := by
      funext w
      simp only [Function.comp]
      exact balUpd_id wid b w
    rw [this]
    exact h1
  · rw [List.map_map]
    have : (WalletRow.user_id ∘ fun w =>
        if w.wallet_id == wid then { w with wallet_balance := b } else w) =
        WalletRow.user_id := by
      funext w
      simp only [Function.comp]
      exact balUpd_user wid b w
    rw [this]
    exact h2
  · intro w hw
    rcases List.mem_map.mp hw with ⟨x, hx, rfl⟩
    rw [balUpd_id]
    exact h3 x hx

theorem findWallet_ext {db1 db2 : DB} (h : db1.wallets = db2.wallets) (u : Nat) :
    findWallet db1 u = findWallet db2 u := by
  unfold findWallet
  rw [h]

theorem findApp_ext {db1 db2 : DB} (h : db1.applications = db2.applications) (k : Nat) :
    findApp db1 k = findApp db2 k := by
  unfold findApp
  rw [h]

theorem creditSteps_noFail_eq (i eid : Nat) (salary : ℚ) (t : Nat) (db : DB)
    (wid : Nat) (cb : ℚ) (a : ApplicationRow) :
    creditSteps noFail i eid salary t db wid cb a =
      .ok (setApplicationFinished
        { setWalletBalance db wid (cb + salary) with
          wallet_transactions := db.wallet_transactions ++
            [{ wallet_id := wid, transaction_event_id := some eid,
               transaction_wd_id := none, transaction_amount := salary,
               transaction_date := t }] } a.application_id,
        (a.application_id, a.user_id)) := rfl

theorem creditOne_noFail_found (i eid : Nat) (salary : ℚ) (t : Nat) (db : DB)
    (a : ApplicationRow) (w : WalletRow) (hw : findWallet db a.user_id = some w) :
    creditOne noFail i eid salary t db a =
      creditSteps noFail i eid salary t db w.wallet_id w.wallet_balance a := by
  unfold creditOne
  rw [hw]
  simp [noFail]

theorem creditOne_noFail_absent (i eid : Nat) (salary : ℚ) (t : Nat) (db : DB)
    (a : ApplicationRow) (hw : findWallet db a.user_id = none) :
    creditOne noFail i eid salary t db a =
      creditSteps noFail i eid salary t (insertWalletRow db a.user_id)
        db.nextWalletId 0 a := by
  unfold creditOne
  rw [hw]
  simp [noFail]

theorem WFWallets_insertWalletRow (db : DB) (u : Nat) (hwf : WFWallets db)
    (hw : findWallet db u = none) : WFWallets (insertWalletRow db u) := by
  obtain ⟨h1, h2, h3⟩ := hwf
  unfold findWallet at hw
  have hnomem := List.find?_eq_none.mp hw
  unfold WFWallets insertWalletRow
  refine ⟨?_, ?_, ?_⟩
  · rw [List.map_append]
    refine List.Nodup.append h1 (by simp) ?_
    intro x hx1 hx2
    rw [List.map_singleton, List.mem_singleton] at hx2
    subst hx2
    rcases List.mem_map.mp hx1 with ⟨y, hy, hid⟩
    exact absurd hid (Nat.ne_of_lt (h3 y hy))
  · rw [List.map_append]
    refine List.Nodup.append h2 (by simp) ?_
    intro x hx1 hx2
    rw [List.map_singleton, List.mem_singleton] at hx2
    subst hx2
    rcases List.mem_map.mp hx1 with ⟨y, hy, hid⟩
    exact absurd (by simp [hid]) (hnomem y hy)
  · intro w hw2
    rcases List.mem_append.mp hw2 with hmem | hmem
    · exact Nat.lt_succ_of_lt (h3 w hmem)
    · rw [List.mem_singleton] at hmem
      subst hmem
      exact Nat.lt_succ_self _

theorem findWallet_insertWalletRow_self (db : DB) (u : Nat)
    (hw : findWallet db u = none) :
    findWallet (insertWalletRow db u) u =
      some { wallet_id := db.nextWalletId, user_id := u, wallet_balance := 0 } := by
  have hsplit : findWallet (insertWalletRow db u) u =
      (findWallet db u).or
        ([({ wallet_id := db.nextWalletId, user_id := u,
             wallet_balance := 0 } : WalletRow)].find? fun w => w.user_id == u) := by
    unfold findWallet insertWalletRow
    exact List.find?_append
  rw [hsplit, hw, Option.none_or]
  exact List.find?_cons_of_pos _ (by simp)

theorem findWallet_insertWalletRow_other (db : DB) (u u2 : Nat) (hne : u2 ≠ u) :
    findWallet (insertWalletRow db u) u2 = findWallet db u2 := by
  have hsplit : findWallet (insertWalletRow db u) u2 =
      (findWallet db u2).or
        ([({ wallet_id := db.nextWalletId, user_id := u,
             wallet_balance := 0 } : WalletRow)].find? fun w => w.user_id == u2) := by
    unfold findWallet insertWalletRow
    exact List.find?_append
  rw [hsplit]
  have h2 : ([({ wallet_id := db.nextWalletId, user_id := u,
                 wallet_balance := 0 } : WalletRow)].find?
      fun w => w.user_id == u2) = none := by
    rw [List.find?_eq_none]
    intro x hx
    rw [List.mem_singleton] at hx
    subst hx
    simp
    exact fun h => hne h.symm
  rw [h2, Option.or_none]

/-- Complete effect of one successful loop iteration on the store. -/
theorem creditOne_noFail_spec (i eid : Nat) (salary : ℚ) (t : Nat) (db : DB)
    (a : ApplicationRow) (hwf : WFWallets db) :
    ∃ db3 w1,
      creditOne noFail i eid salary t db a =
        .ok (db3, (a.application_id, a.user_id)) ∧
      findWallet db3 a.user_id = some w1 ∧
      w1.user_id = a.user_id ∧
      w1.wallet_balance = userBalance db a.user_id + salary ∧
      (∀ u, u ≠ a.user_id → findWallet db3 u = findWallet db u) ∧
      WFWallets db3 ∧
      db.nextWalletId ≤ db3.nextWalletId ∧
      db3.wallet_transactions = db.wallet_transactions ++
        [{ wallet_id := w1.wallet_id, transaction_event_id := some eid,
           transaction_wd_id := none, transaction_amount := salary,
           transaction_date := t }] ∧
      db3.applications = db.applications.map (fun b =>
        if b.application_id == a.application_id then
          { b with application_status := "finished" } else b) ∧
      db3.events = db.events := by
  cases hw : findWallet db a.user_id with
  | some w =>
    have husr := findWallet_user hw
    have hrun : creditOne noFail i eid salary t db a =
        creditSteps noFail i eid salary t db w.wallet_id w.wallet_balance a :=
      creditOne_noFail_found i eid salary t db a w hw
    rw [creditSteps_noFail_eq] at hrun
    refine ⟨_, { w with wallet_balance := w.wallet_balance + salary },
      hrun, ?_, ?_, ?_, ?_, ?_, ?_, ?_, ?_, ?_⟩
    · have h1 : findWallet
          (setWalletBalance db w.wallet_id (w.wallet_balance + salary)) a.user_id =
          some { w with wallet_balance := w.wallet_balance + salary } := by
        rw [findWallet_setWalletBalance, hw]
        simp
      exact (findWallet_ext rfl a.user_id).trans h1
    · exact husr
    · simp [userBalance, hw]
    · intro u hu
      have h1 : findWallet
          (setWalletBalance db w.wallet_id (w.wallet_balance + salary)) u =
          findWallet db u := by
        rw [findWallet_setWalletBalance]
        cases h2 : findWallet db u with
        | none => rfl
        | some w2 =>
          have hne : w2.wallet_id ≠ w.wallet_id := by
            intro he
            have heq := findWallet_inj hwf.1 h2 hw he
            apply hu
            rw [← findWallet_user h2, heq, husr]
          simp [hne]
      exact (findWallet_ext rfl u).trans h1
    · exact WFWallets_ext rfl rfl
        (WFWallets_setWalletBalance db w.wallet_id (w.wallet_balance + salary) hwf)
    · exact Nat.le_of_eq rfl
    · rfl
    · rfl
    · rfl
  | none =>
    have hrun : creditOne noFail i eid salary t db a =
        creditSteps noFail i eid salary t (insertWalletRow db a.user_id)
          db.nextWalletId 0 a :=
      creditOne_noFail_absent i eid salary t db a hw
    rw [creditSteps_noFail_eq] at hrun
    refine ⟨_, { wallet_id := db.nextWalletId, user_id := a.user_id,
                 wallet_balance := 0 + salary },
      hrun, ?_, ?_, ?_, ?_, ?_, ?_, ?_, ?_, ?_⟩
    · have h1 : findWallet
          (setWalletBalance (insertWalletRow db a.user_id) db.nextWalletId
            (0 + salary)) a.user_id =
          some { wallet_id := db.nextWalletId, user_id := a.user_id,
                 wallet_balance := 0 + salary } := by
        rw [findWallet_setWalletBalance, findWallet_insertWalletRow_self db a.user_id hw]
        simp
      exact (findWallet_ext rfl a.user_id).trans h1
    · rfl
    · simp [userBalance, hw]
    · intro u hu
      have h1 : findWallet
          (setWalletBalance (insertWalletRow db a.user_id) db.nextWalletId
            (0 + salary)) u = findWallet db u := by
        rw [findWallet_setWalletBalance, findWallet_insertWalletRow_other db a.user_id u hu]
        cases h3 : findWallet db u with
        | none => rfl
        | some w2 =>
          have hne : w2.wallet_id ≠ db.nextWalletId :=
            Nat.ne_of_lt (hwf.2.2 w2 (findWallet_mem h3))
          simp [hne]
      exact (findWallet_ext rfl u).trans h1
    · exact WFWallets_ext rfl rfl
        (WFWallets_setWalletBalance (insertWalletRow db a.user_id) db.nextWalletId
          (0 + salary) (WFWallets_insertWalletRow db a.user_id hwf hw))
    · exact Nat.le_succ _
    · rfl
    · rfl
    · rfl

/-! ### Effect of the whole credit loop (no store failures) -/

theorem creditLoop_cons_ok (fail : StoreOp → Bool) (eid : Nat) (salary : ℚ)
    (t i : Nat) (db : DB) (a : ApplicationRow) (rest : List ApplicationRow)
    (db1 : DB) (p : Nat × Nat)
    (h : creditOne fail i eid salary t db a = .ok (db1, p)) :
    creditLoop fail eid salary t i db (a :: rest) =
      match creditLoop fail eid salary t (i + 1) db1 rest with
      | .error dbE => .error dbE
      | .ok (db2, ps) => .ok (db2, p :: ps) := by
  rw [creditLoop, h]

theorem findApp_map_setfn (db db1 : DB) (aid : Nat)
    (h : db1.applications = db.applications.map fun b =>
      if b.application_id == aid then
        { b with application_status := "finished" } else b) (k : Nat) :
    findApp db1 k = (findApp db k).map fun b =>
      if b.application_id == aid then
        { b with application_status := "finished" } else b := by
  exact (findApp_ext h k).trans (findApp_setApplicationFinished db aid k)

theorem creditLoop_noFail_spec (eid : Nat) (salary : ℚ) (t : Nat) :
    ∀ (apps : List ApplicationRow) (i : Nat) (db : DB),
      WFWallets db →
      (apps.map ApplicationRow.user_id).Nodup →
      (apps.map ApplicationRow.application_id).Nodup →
      (∀ a ∈ apps, findApp db a.application_id = some a) →
      ∃ db2 ps, creditLoop noFail eid salary t i db apps = .ok (db2, ps) ∧
        LoopPost db db2 eid salary t apps ps := by
  intro apps
  induction apps with
  | nil =>
    intro i db hwf _ _ _
    refine ⟨db, [], rfl, ?_⟩
    refine ⟨rfl, rfl, hwf, Nat.le_refl _, fun u _ => rfl, fun k _ => rfl,
      ?_, [], (List.append_nil _).symm, rfl, ?_, ?_, ?_⟩
    · intro a ha
      cases ha
    · intro tx htx
      cases htx
    · intro a ha
      cases ha
    · intro tx htx
      cases htx
  | cons a rest ih =>
    intro i db hwf hund hidnd happ
    rw [List.map_cons, List.nodup_cons] at hund hidnd
    obtain ⟨husernotin, hund2⟩ := hund
    obtain ⟨haidnotin, hidnd2⟩ := hidnd
    obtain ⟨db1, w1, hrun1, hfw1, huser1, hbal1, hframe1, hwf1, hnext1, htx1,
      happs1, hev1⟩ := creditOne_noFail_spec i eid salary t db a hwf
    have happ1 := findApp_map_setfn db db1 a.application_id happs1
    have happ2 : ∀ b ∈ rest, findApp db1 b.application_id = some b := by
      intro b hb
      rw [happ1, happ b (List.mem_cons_of_mem a hb)]
      have hne : b.application_id ≠ a.application_id := by
        intro he
        apply haidnotin
        rw [← he]
        exact List.mem_map_of_mem _ hb
      simp [hne]
    obtain ⟨db2, ps2, hrun2, post2⟩ := ih (i + 1) db1 hwf1 hund2 hidnd2 happ2
    have hfw2a : findWallet db2 a.user_id = some w1 :=
      (post2.wallets_frame a.user_id husernotin).trans hfw1
    refine ⟨db2, (a.application_id, a.user_id) :: ps2, ?_, ?_⟩
    · rw [creditLoop_cons_ok noFail eid salary t i db a rest db1 _ hrun1, hrun2]
    refine ⟨?_, post2.events_eq.trans hev1, post2.wf,
      hnext1.trans post2.next_le, ?_, ?_, ?_, ?_⟩
    · rw [List.map_cons, post2.processed_eq]
    · intro u hu
      rw [List.map_cons, List.mem_cons] at hu
      push_neg at hu
      exact (post2.wallets_frame u hu.2).trans (hframe1 u hu.1)
    · intro k hk
      rw [List.map_cons, List.mem_cons] at hk
      push_neg at hk
      refine (post2.apps_frame k hk.2).trans ?_
      rw [happ1]
      cases h3 : findApp db k with
      | none => rfl
      | some b =>
        have hbk : b.application_id = k := by
          unfold findApp at h3
          have h4 := List.find?_some h3
          exact eq_of_beq h4
        have hne : b.application_id ≠ a.application_id := by
          rw [hbk]
          exact hk.1
        simp [hne]
    · intro b hb
      rcases List.mem_cons.mp hb with rfl | hbr
      · refine ⟨w1, hfw2a, huser1, hbal1, ?_⟩
        refine (post2.apps_frame b.application_id haidnotin).trans ?_
        rw [happ1, happ b (List.mem_cons_self b rest)]
        simp
      · obtain ⟨w, hfw, huser, hbal, happfin⟩ := post2.per_app b hbr
        have hbne : b.user_id ≠ a.user_id := by
          intro he
          apply husernotin
          rw [← he]
          exact List.mem_map_of_mem _ hbr
        have hub : userBalance db1 b.user_id = userBalance db b.user_id := by
          unfold userBalance
          rw [hframe1 b.user_id hbne]
        rw [hub] at hbal
        exact ⟨w, hfw, huser, hbal, happfin⟩
    · obtain ⟨newTxs2, htxeq2, hlen2, hfields2, hcount2, honto2⟩ := post2.txs
      refine ⟨{ wallet_id := w1.wallet_id, transaction_event_id := some eid,
                transaction_wd_id := none, transaction_amount := salary,
                transaction_date := t } :: newTxs2, ?_, ?_, ?_, ?_, ?_⟩
      · rw [htxeq2, htx1, List.append_assoc, List.singleton_append]
      · simp [hlen2]
      · intro tx htx
        rcases List.mem_cons.mp htx with rfl | htx2
        · exact ⟨rfl, rfl, rfl, rfl⟩
        · exact hfields2 tx htx2
      · intro b hb
        rcases List.mem_cons.mp hb with rfl | hbr
        · refine ⟨w1, hfw2a, ?_⟩
          have hnil : (newTxs2.filter fun tx => tx.wallet_id == w1.wallet_id) = [] := by
            rw [List.filter_eq_nil_iff]
            intro tx htx
            obtain ⟨b2, hb2, w2, hfw2, heq2⟩ := honto2 tx htx
            have hne2 : b2.user_id ≠ b.user_id := by
              intro he
              apply husernotin
              rw [← he]
              exact List.mem_map_of_mem _ hb2
            intro hbeq
            have hid : tx.wallet_id = w1.wallet_id := eq_of_beq hbeq
            rw [heq2] at hid
            have := findWallet_inj post2.wf.1 hfw2 hfw2a hid
            apply hne2
            rw [← findWallet_user hfw2, this, huser1]
          rw [List.filter_cons_of_pos (by simp), hnil]
          rfl
        · obtain ⟨w, hfw, hcnt⟩ := hcount2 b hbr
          refine ⟨w, hfw, ?_⟩
          have hbne : b.user_id ≠ a.user_id := by
            intro he
            apply husernotin
            rw [← he]
            exact List.mem_map_of_mem _ hbr
          have hne : ¬ ((w1.wallet_id == w.wallet_id) = true) := by
            intro hbeq
            have hid : w1.wallet_id = w.wallet_id := eq_of_beq hbeq
            have := findWallet_inj post2.wf.1 hfw2a hfw hid
            apply hbne
            rw [← findWallet_user hfw, ← this, huser1]
          have hstep :
              List.filter (fun tx => tx.wallet_id == w.wallet_id)
                (({ wallet_id := w1.wallet_id, transaction_event_id := some eid,
                    transaction_wd_id := none, transaction_amount := salary,
                    transaction_date := t } : WalletTransactionRow) :: newTxs2) =
              List.filter (fun tx => tx.wallet_id == w.wallet_id) newTxs2 :=
            List.filter_cons_of_neg hne
          rw [hstep]
          exact hcnt
      · intro tx htx
        rcases List.mem_cons.mp htx with rfl | htx2
        · exact ⟨a, List.mem_cons_self a rest, w1, hfw2a, rfl⟩
        · obtain ⟨b2, hb2, w2, hfw2, heq2⟩ := honto2 tx htx2
          exact ⟨b2, List.mem_cons_of_mem a hb2, w2, hfw2, heq2⟩

/-! ### Branch computations of the finish handler -/

theorem finishEvent_notFound_eq (fail : StoreOp → Bool) (db : DB) (eid t : Nat)
    (h : (if fail .selectEvent then none else findEvent db eid) = none) :
    finishEvent fail db eid t = (.notFound, db) := by
  unfold finishEvent
  rw [h]

theorem finishEvent_alreadyFinished_eq (fail : StoreOp → Bool) (db : DB)
    (eid t : Nat) (ev : EventRow) (hsel : fail .selectEvent = false)
    (hev : findEvent db eid = some ev) (hst : ev.event_status = "finished") :
    finishEvent fail db eid t = (.alreadyFinished, db) := by
  unfold finishEvent
  rw [hsel, hev]
  simp [hst]

theorem finishEvent_empty_eq (fail : StoreOp → Bool) (db : DB) (eid t : Nat)
    (ev : EventRow) (hsel : fail .selectEvent = false)
    (hev : findEvent db eid = some ev) (hst : ev.event_status ≠ "finished")
    (hap : fail .selectApplications = false)
    (hemp : (eligibleApplications db eid).isEmpty = true) :
    finishEvent fail db eid t =
      (.emptyFinished,
        if fail .emptyEventUpdate then db else setEventFinishedOnly db eid) := by
  unfold finishEvent
  rw [hsel, hev]
  have hb : (ev.event_status == "finished") = false := by
    simp [hst]
  simp [hb, hap, hemp]

theorem finishEvent_nonempty_eq (fail : StoreOp → Bool) (db : DB) (eid t : Nat)
    (ev : EventRow) (hsel : fail .selectEvent = false)
    (hev : findEvent db eid = some ev) (hst : ev.event_status ≠ "finished")
    (hemp : (eligibleApplications db eid).isEmpty = false) :
    finishEvent fail db eid t =
      if fail .selectApplications then (.serverError, db)
      else
        match creditLoop fail eid (eventSalary ev) t 0 db
            (eligibleApplications db eid) with
        | .error dbE => (.serverError, dbE)
        | .ok (db1, processed) =>
          if fail .finalEventUpdate then (.serverError, db1)
          else (.finished processed, setEventFinishedStamped db1 eid t) := by
  unfold finishEvent
  rw [hsel, hev]
  have hb : (ev.event_status == "finished") = false := by
    simp [hst]
  simp [hb, hemp]

/-- Full effect of a finish call in which every store operation
succeeds, on an unfinished event with a nonempty eligibility set. -/
theorem finishEvent_noFail_spec (db : DB) (eid t : Nat) (ev : EventRow)
    (hwfW : WFWallets db) (hwfA : WFApplications db)
    (hev : findEvent db eid = some ev) (hst : ev.event_status ≠ "finished")
    (hne : eligibleApplications db eid ≠ []) :
    ∃ db2, finishEvent noFail db eid t =
        (.finished ((eligibleApplications db eid).map fun x =>
          (x.application_id, x.user_id)),
         setEventFinishedStamped db2 eid t) ∧
      LoopPost db db2 eid (eventSalary ev) t (eligibleApplications db eid)
        ((eligibleApplications db eid).map fun x =>
          (x.application_id, x.user_id)) := by
  have hemp : (eligibleApplications db eid).isEmpty = false := by
    cases h : eligibleApplications db eid with
    | nil => exact absurd h hne
    | cons x xs => rfl
  have hund := eligible_users_nodup db eid hwfA.2
  have hidnd := eligible_ids_nodup db eid hwfA.1
  have happ : ∀ a ∈ eligibleApplications db eid,
      findApp db a.application_id = some a :=
    fun a ha => findApp_of_mem hwfA.1 (eligible_sub db eid a ha)
  obtain ⟨db2, ps, hrun, post⟩ :=
    creditLoop_noFail_spec eid (eventSalary ev) t (eligibleApplications db eid)
      0 db hwfW hund hidnd happ
  have hps := post.processed_eq
  subst hps
  refine ⟨db2, ?_, post⟩
  rw [finishEvent_nonempty_eq noFail db eid t ev rfl hev hst hemp, hrun]
  rfl

/-! ### The ledger is append-only on every path, with fixed entry shape -/

theorem findEvent_ext {db1 db2 : DB} (h : db1.events = db2.events) (k : Nat) :
    findEvent db1 k = findEvent db2 k := by
  unfold findEvent
  rw [h]

theorem creditSteps_txs_extend (fail : StoreOp → Bool) (i eid : Nat)
    (salary : ℚ) (t : Nat) (db : DB) (wid : Nat) (cb : ℚ)
    (a : ApplicationRow) :
    ∃ ts, (resultDB (creditSteps fail i eid salary t db wid cb a)).wallet_transactions =
        db.wallet_transactions ++ ts ∧
      ∀ tx ∈ ts, tx.transaction_event_id = some eid ∧
        tx.transaction_wd_id = none ∧ tx.transaction_amount = salary ∧
        tx.transaction_date = t := by
  unfold creditSteps
  cases h1 : fail (StoreOp.updateWalletBalance i) with
  | true =>
    refine ⟨[], by simp [h1, resultDB], ?_⟩
    intro tx htx
    cases htx
  | false =>
    cases h2 : fail (StoreOp.insertTransaction i) with
    | true =>
      refine ⟨[], by simp [h1, h2, resultDB, setWalletBalance], ?_⟩
      intro tx htx
      cases htx
    | false =>
      cases h3 : fail (StoreOp.updateApplication i) with
      | true =>
        refine ⟨[{ wallet_id := wid, transaction_event_id := some eid,
                   transaction_wd_id := none, transaction_amount := salary,
                   transaction_date := t }],
          by simp [h1, h2, h3, resultDB, setWalletBalance], ?_⟩
        intro tx htx
        rw [List.mem_singleton] at htx
        subst htx
        exact ⟨rfl, rfl, rfl, rfl⟩
      | false =>
        refine ⟨[{ wallet_id := wid, transaction_event_id := some eid,
                   transaction_wd_id := none, transaction_amount := salary,
                   transaction_date := t }],
          by simp [h1, h2, h3, resultDB, setWalletBalance, setApplicationFinished], ?_⟩
        intro tx htx
        rw [List.mem_singleton] at htx
        subst htx
        exact ⟨rfl, rfl, rfl, rfl⟩

theorem creditOne_txs_extend (fail : StoreOp → Bool) (i eid : Nat)
    (salary : ℚ) (t : Nat) (db : DB) (a : ApplicationRow) :
    ∃ ts, (resultDB (creditOne fail i eid salary t db a)).wallet_transactions =
        db.wallet_transactions ++ ts ∧
      ∀ tx ∈ ts, tx.transaction_event_id = some eid ∧
        tx.transaction_wd_id = none ∧ tx.transaction_amount = salary ∧
        tx.transaction_date = t := by
  cases hsel : fail (StoreOp.selectWallet i) with
  | true =>
    have hcomp : creditOne fail i eid salary t db a =
        (if fail (.insertWallet i) || (findWallet db a.user_id).isSome then
          .error db
        else creditSteps fail i eid salary t (insertWalletRow db a.user_id)
          db.nextWalletId 0 a) := by
      unfold creditOne
      rw [hsel]
      rfl
    rw [hcomp]
    cases hins : (fail (StoreOp.insertWallet i) || (findWallet db a.user_id).isSome) with
    | true =>
      refine ⟨[], by simp [hins, resultDB], ?_⟩
      intro tx htx
      cases htx
    | false =>
      obtain ⟨ts, hts, hf⟩ := creditSteps_txs_extend fail i eid salary t
        (insertWalletRow db a.user_id) db.nextWalletId 0 a
      exact ⟨ts, hts, hf⟩
  | false =>
    cases hfw : findWallet db a.user_id with
    | some w =>
      have hcomp : creditOne fail i eid salary t db a =
          creditSteps fail i eid salary t db w.wallet_id w.wallet_balance a := by
        unfold creditOne
        rw [hsel, hfw]
        rfl
      rw [hcomp]
      exact creditSteps_txs_extend fail i eid salary t db w.wallet_id
        w.wallet_balance a
    | none =>
      have hcomp : creditOne fail i eid salary t db a =
          (if fail (.insertWallet i) || (findWallet db a.user_id).isSome then
            .error db
          else creditSteps fail i eid salary t (insertWalletRow db a.user_id)
            db.nextWalletId 0 a) := by
        unfold creditOne
        rw [hsel, hfw]
        rfl
      rw [hcomp]
      cases hins : (fail (StoreOp.insertWallet i) || (findWallet db a.user_id).isSome) with
      | true =>
        refine ⟨[], by simp [hins, resultDB], ?_⟩
        intro tx htx
        cases htx
      | false =>
        obtain ⟨ts, hts, hf⟩ := creditSteps_txs_extend fail i eid salary t
          (insertWalletRow db a.user_id) db.nextWalletId 0 a
        exact ⟨ts, hts, hf⟩

theorem creditLoop_txs_extend (fail : StoreOp → Bool) (eid : Nat)
    (salary : ℚ) (t : Nat) :
    ∀ (apps : List ApplicationRow) (i : Nat) (db : DB),
    ∃ ts, (resultDB (creditLoop fail eid salary t i db apps)).wallet_transactions =
        db.wallet_transactions ++ ts ∧
      ∀ tx ∈ ts, tx.transaction_event_id = some eid ∧
        tx.transaction_wd_id = none ∧ tx.transaction_amount = salary ∧
        tx.transaction_date = t := by
  intro apps
  induction apps with
  | nil =>
    intro i db
    refine ⟨[], by simp [creditLoop, resultDB], ?_⟩
    intro tx htx
    cases htx
  | cons a rest ih =>
    intro i db
    cases hc : creditOne fail i eid salary t db a with
    | error dbE =>
      obtain ⟨ts1, hts1, hf1⟩ := creditOne_txs_extend fail i eid salary t db a
      rw [hc] at hts1
      have hcomp : creditLoop fail eid salary t i db (a :: rest) = .error dbE := by
        rw [creditLoop, hc]
      rw [hcomp]
      exact ⟨ts1, hts1, hf1⟩
    | ok pr =>
      obtain ⟨db1, p⟩ := pr
      obtain ⟨ts1, hts1, hf1⟩ := creditOne_txs_extend fail i eid salary t db a
      rw [hc] at hts1
      have hcomp := creditLoop_cons_ok fail eid salary t i db a rest db1 p hc
      rw [hcomp]
      obtain ⟨ts2, hts2, hf2⟩ := ih (i + 1) db1
      cases hl : creditLoop fail eid salary t (i + 1) db1 rest with
      | error dbE2 =>
        rw [hl] at hts2
        refine ⟨ts1 ++ ts2, ?_, ?_⟩
        · show dbE2.wallet_transactions = db.wallet_transactions ++ (ts1 ++ ts2)
          rw [← List.append_assoc, ← hts1]
          exact hts2
        · intro tx htx
          rcases List.mem_append.mp htx with h | h
          · exact hf1 tx h
          · exact hf2 tx h
      | ok pr2 =>
        obtain ⟨db2, ps2⟩ := pr2
        rw [hl] at hts2
        refine ⟨ts1 ++ ts2, ?_, ?_⟩
        · show db2.wallet_transactions = db.wallet_transactions ++ (ts1 ++ ts2)
          rw [← List.append_assoc, ← hts1]
          exact hts2
        · intro tx htx
          rcases List.mem_append.mp htx with h | h
          · exact hf1 tx h
          · exact hf2 tx h

/-- On every path of the finish handler — any oracle, any store — the
ledger only grows, and every appended entry references the finished
event (and no withdrawal) and carries the captured timestamp. -/
theorem finishEvent_txs_extend (fail : StoreOp → Bool) (db : DB) (eid t : Nat) :
    ∃ ts, (finishEvent fail db eid t).2.wallet_transactions =
        db.wallet_transactions ++ ts ∧
      ∀ tx ∈ ts, tx.transaction_event_id = some eid ∧
        tx.transaction_wd_id = none ∧ tx.transaction_date = t := by
  cases hf0 : fail StoreOp.selectEvent with
  | true =>
    have h : finishEvent fail db eid t = (.notFound, db) :=
      finishEvent_notFound_eq fail db eid t (by rw [hf0]; rfl)
    rw [h]
    exact ⟨[], (List.append_nil _).symm, by intro tx htx; cases htx⟩
  | false =>
    cases hevm : findEvent db eid with
    | none =>
      have h : finishEvent fail db eid t = (.notFound, db) :=
        finishEvent_notFound_eq fail db eid t (by rw [hf0, hevm]; rfl)
      rw [h]
      exact ⟨[], (List.append_nil _).symm, by intro tx htx; cases htx⟩
    | some ev =>
      cases hst : (ev.event_status == "finished") with
      | true =>
        have hsteq : ev.event_status = "finished" := by
          simpa using hst
        have h := finishEvent_alreadyFinished_eq fail db eid t ev hf0 hevm hsteq
        rw [h]
        exact ⟨[], (List.append_nil _).symm, by intro tx htx; cases htx⟩
      | false =>
        have hstne : ev.event_status ≠ "finished" := by
          intro he
          rw [he] at hst
          simp at hst
        cases hap : fail StoreOp.selectApplications with
        | true =>
          have h : finishEvent fail db eid t = (.serverError, db) := by
            unfold finishEvent
            rw [hf0, hevm]
            simp [hst, hap]
          rw [h]
          exact ⟨[], (List.append_nil _).symm, by intro tx htx; cases htx⟩
        | false =>
          cases hemp : (eligibleApplications db eid).isEmpty with
          | true =>
            have h := finishEvent_empty_eq fail db eid t ev hf0 hevm hstne hap hemp
            rw [h]
            refine ⟨[], ?_, by intro tx htx; cases htx⟩
            show (if fail StoreOp.emptyEventUpdate then db
                else setEventFinishedOnly db eid).wallet_transactions =
              db.wallet_transactions ++ []
            cases hfe : fail StoreOp.emptyEventUpdate with
            | true => simp [hfe]
            | false => simp [hfe, setEventFinishedOnly]
          | false =>
            have h := finishEvent_nonempty_eq fail db eid t ev hf0 hevm hstne hemp
            rw [hap] at h
            obtain ⟨ts, hts, hfields⟩ := creditLoop_txs_extend fail eid
              (eventSalary ev) t (eligibleApplications db eid) 0 db
            cases hl : creditLoop fail eid (eventSalary ev) t 0 db
                (eligibleApplications db eid) with
            | error dbE =>
              rw [hl] at hts h
              refine ⟨ts, ?_, fun tx htx => ⟨(hfields tx htx).1,
                (hfields tx htx).2.1, (hfields tx htx).2.2.2⟩⟩
              rw [h]
              exact hts
            | ok pr =>
              obtain ⟨db1, ps⟩ := pr
              rw [hl] at hts h
              cases hfu : fail StoreOp.finalEventUpdate with
              | true =>
                rw [hfu] at h
                refine ⟨ts, ?_, fun tx htx => ⟨(hfields tx htx).1,
                  (hfields tx htx).2.1, (hfields tx htx).2.2.2⟩⟩
                rw [h]
                exact hts
              | false =>
                rw [hfu] at h
                refine ⟨ts, ?_, fun tx htx => ⟨(hfields tx htx).1,
                  (hfields tx htx).2.1, (hfields tx htx).2.2.2⟩⟩
                rw [h]
                exact hts

/-! ### Claim theorems -/

/-- Claim C1: for every eligible application (clock-out proof present) of
an event, under a finish call that completes successfully (a run with no
store failures), exactly one wallet_transaction referencing that event
exists for that worker wallet afterward, the worker wallet balance has
increased by exactly the event salary amount, and that application has
transitioned to finished. -/
theorem finish_credits_each_eligible_worker (db : DB) (eid t : Nat)
    (ev : EventRow) (a : ApplicationRow)
    (hwfW : WFWallets db) (hwfA : WFApplications db)
    (hev : findEvent db eid = some ev) (hst : ev.event_status ≠ "finished")
    (hnotx : eventTxs db eid = []) (ha : a ∈ eligibleApplications db eid) :
    (finishEvent noFail db eid t).1 =
      .finished ((eligibleApplications db eid).map fun x =>
        (x.application_id, x.user_id)) ∧
    ∃ w, findWallet (finishEvent noFail db eid t).2 a.user_id = some w ∧
      w.wallet_balance = userBalance db a.user_id + eventSalary ev ∧
      eventWalletTxCount (finishEvent noFail db eid t).2 eid w.wallet_id = 1 ∧
      findApp (finishEvent noFail db eid t).2 a.application_id =
        some { a with application_status := "finished" } := by
  have hne : eligibleApplications db eid ≠ [] := List.ne_nil_of_mem ha
  obtain ⟨db2, hfe, post⟩ :=
    finishEvent_noFail_spec db eid t ev hwfW hwfA hev hst hne
  rw [hfe]
  obtain ⟨w, hfw, huser, hbal, happfin⟩ := post.per_app a ha
  refine ⟨rfl, w, (findWallet_ext rfl a.user_id).trans hfw, hbal, ?_,
    (findApp_ext rfl a.application_id).trans happfin⟩
  obtain ⟨newTxs, htxeq, hlen, hfields, hcount, honto⟩ := post.txs
  obtain ⟨w2, hfw2, hcnt⟩ := hcount a ha
  have hww : w = w2 := Option.some.inj (hfw.symm.trans hfw2)
  subst hww
  show ((db2.wallet_transactions.filter
      fun tx => tx.transaction_event_id == some eid).filter
        fun tx => tx.wallet_id == w.wallet_id).length = 1
  rw [htxeq, List.filter_append]
  have hold : db.wallet_transactions.filter
      (fun tx => tx.transaction_event_id == some eid) = [] := hnotx
  have hnew : newTxs.filter (fun tx => tx.transaction_event_id == some eid) =
      newTxs := by
    rw [List.filter_eq_self]
    intro tx htx
    simp [(hfields tx htx).1]
  rw [hold, hnew, List.nil_append]
  exact hcnt

/-- Claim C1 witness: the theorem applied to a concrete store with two
eligible workers and one eligible application singled out. -/
theorem finish_credits_each_eligible_worker_witness :
    (finishEvent noFail sampleDB 1 77).1 =
      .finished ((eligibleApplications sampleDB 1).map fun x =>
        (x.application_id, x.user_id)) ∧
    ∃ w, findWallet (finishEvent noFail sampleDB 1 77).2 sampleApp10.user_id = some w ∧
      w.wallet_balance = userBalance sampleDB sampleApp10.user_id + eventSalary sampleEvent ∧
      eventWalletTxCount (finishEvent noFail sampleDB 1 77).2 1 w.wallet_id = 1 ∧
      findApp (finishEvent noFail sampleDB 1 77).2 sampleApp10.application_id =
        some { sampleApp10 with application_status := "finished" } :=
  finish_credits_each_eligible_worker sampleDB 1 77 sampleEvent sampleApp10
    (by decide) (by decide) rfl (by decide) rfl (by decide)

/-- Claim C2: for every event whose status is already finished, calling
finish fails with AlreadyFinished (HTTP 400), and the store is returned
completely unchanged: no wallet balance altered, no wallet_transaction
created, no application or event row modified — for any failure oracle
whose event lookup succeeds. -/
theorem finish_already_finished_rejected (fail : StoreOp → Bool) (db : DB)
    (eid t : Nat) (ev : EventRow) (hsel : fail .selectEvent = false)
    (hev : findEvent db eid = some ev) (hst : ev.event_status = "finished") :
    finishEvent fail db eid t = (.alreadyFinished, db) ∧
    responseHttpStatus (finishEvent fail db eid t).1 = 400 := by
  have h := finishEvent_alreadyFinished_eq fail db eid t ev hsel hev hst
  exact ⟨h, by rw [h]; rfl⟩

/-- Claim C2 witness: the theorem applied to a concrete store whose event
is already finished. -/
theorem finish_already_finished_rejected_witness :
    finishEvent noFail sampleFinishedDB 1 77 = (.alreadyFinished, sampleFinishedDB) ∧
    responseHttpStatus (finishEvent noFail sampleFinishedDB 1 77).1 = 400 :=
  finish_already_finished_rejected noFail sampleFinishedDB 1 77
    { sampleEvent with event_status := "finished" } rfl rfl rfl

/-- Claim C3 counterexample: a store failure at the very first read of a
finish call (the event lookup) surfaces NotFound with HTTP 404, not the
generic 500 server error the claim requires for every store failure. -/
theorem finish_store_failure_counterexample :
    finishEvent (fun op => op == .selectEvent) sampleDB 1 77 =
      (.notFound, sampleDB) ∧
    responseHttpStatus
      (finishEvent (fun op => op == .selectEvent) sampleDB 1 77).1 = 404 ∧
    responseHttpStatus
      (finishEvent (fun op => op == .selectEvent) sampleDB 1 77).1 ≠ 500 := by
  refine ⟨rfl, rfl, by decide⟩

/-- Claim C3 (amended): a store failure at the applications query, inside
the credit loop (wallet creation, balance update, transaction insert,
application update), or at the final event update aborts the workflow
immediately with a generic 500 server error and performs no rollback:
the ledger still contains every wallet_transaction that was present
before the failing step (the failure at the initial event lookup instead
surfaces NotFound, a wallet-lookup failure is treated as a missing
wallet, and a failure of the event update in the zero-eligible branch is
ignored). -/
theorem finish_store_failure_aborts_without_rollback (fail : StoreOp → Bool)
    (db : DB) (eid t : Nat) (ev : EventRow)
    (hsel : fail .selectEvent = false)
    (hev : findEvent db eid = some ev) (hst : ev.event_status ≠ "finished")
    (hemp : (eligibleApplications db eid).isEmpty = false)
    (hfailpt : fail .selectApplications = true ∨
      (∃ dbE, creditLoop fail eid (eventSalary ev) t 0 db
        (eligibleApplications db eid) = .error dbE) ∨
      fail .finalEventUpdate = true) :
    responseHttpStatus (finishEvent fail db eid t).1 = 500 ∧
    ∃ ts, (finishEvent fail db eid t).2.wallet_transactions =
      db.wallet_transactions ++ ts := by
  have h := finishEvent_nonempty_eq fail db eid t ev hsel hev hst hemp
  cases hap : fail StoreOp.selectApplications with
  | true =>
    rw [hap] at h
    have h2 : finishEvent fail db eid t = (.serverError, db) := by
      rw [h]
      rfl
    rw [h2]
    exact ⟨rfl, [], (List.append_nil _).symm⟩
  | false =>
    rw [hap] at h
    obtain ⟨ts0, hts0, _⟩ := creditLoop_txs_extend fail eid (eventSalary ev) t
      (eligibleApplications db eid) 0 db
    cases hl : creditLoop fail eid (eventSalary ev) t 0 db
        (eligibleApplications db eid) with
    | error dbE =>
      rw [hl] at h hts0
      have h2 : finishEvent fail db eid t = (.serverError, dbE) := by
        rw [h]
        rfl
      rw [h2]
      exact ⟨rfl, ts0, hts0⟩
    | ok pr =>
      obtain ⟨db1, ps⟩ := pr
      rw [hl] at h hts0
      have hfu : fail StoreOp.finalEventUpdate = true := by
        rcases hfailpt with h1 | ⟨dbE, h1⟩ | h1
        · rw [hap] at h1
          simp at h1
        · rw [hl] at h1
          exact Except.noConfusion h1
        · exact h1
      rw [hfu] at h
      have h2 : finishEvent fail db eid t = (.serverError, db1) := by
        rw [h]
        rfl
      rw [h2]
      exact ⟨rfl, ts0, hts0⟩

/-- Claim C3 (amended) witness: a failure of the final event update on a
concrete store yields a 500 and keeps the already-committed ledger. -/
theorem finish_store_failure_aborts_without_rollback_witness :
    responseHttpStatus
      (finishEvent (fun op => op == .finalEventUpdate) sampleDB 1 77).1 = 500 ∧
    ∃ ts, (finishEvent (fun op => op == .finalEventUpdate) sampleDB 1 77).2.wallet_transactions =
      sampleDB.wallet_transactions ++ ts :=
  finish_store_failure_aborts_without_rollback
    (fun op => op == .finalEventUpdate) sampleDB 1 77 sampleEvent
    rfl rfl (by decide) (by decide) (Or.inr (Or.inr rfl))

/-- Claim C4: at the failing input — an existing unfinished event with
zero eligible applications — the handler does transition the event to
finished, creates no ledger entry, and returns HTTP 200; but the body it
returns is the zero-eligible body whose `processed` field is the number
0 and which carries no `processedCount` field at all, contradicting the
documented success shape `processedCount = 0`. -/
theorem finish_empty_zero_processed_response :
    finishEvent noFail sampleEmptyDB 1 77 =
      (.emptyFinished, setEventFinishedOnly sampleEmptyDB 1) ∧
    responseHttpStatus (finishEvent noFail sampleEmptyDB 1 77).1 = 200 ∧
    responseProcessedCountField (finishEvent noFail sampleEmptyDB 1 77).1 = none ∧
    responseProcessedField (finishEvent noFail sampleEmptyDB 1 77).1 =
      some (Sum.inl 0) ∧
    (finishEvent noFail sampleEmptyDB 1 77).2.wallet_transactions = [] ∧
    (finishEvent noFail sampleEmptyDB 1 77).2.wallets = sampleEmptyDB.wallets ∧
    findEvent (finishEvent noFail sampleEmptyDB 1 77).2 1 =
      some { sampleEvent with event_status := "finished" } := by
  refine ⟨rfl, rfl, rfl, rfl, rfl, rfl, by decide⟩

/-- Claim C5: for every fully successful finish call (a run with no
store failures: including the zero-eligible case), the sum of the
amounts of all wallet_transaction rows tied to that event equals the
number of eligible applications multiplied by the event salary. -/
theorem finish_ledger_sum_eq_count_times_salary (db : DB) (eid t : Nat)
    (ev : EventRow) (hwfW : WFWallets db) (hwfA : WFApplications db)
    (hev : findEvent db eid = some ev) (hst : ev.event_status ≠ "finished")
    (hnotx : eventTxs db eid = []) :
    responseHttpStatus (finishEvent noFail db eid t).1 = 200 ∧
    eventTxSum (finishEvent noFail db eid t).2 eid =
      ((eligibleApplications db eid).length : ℚ) * eventSalary ev := by
  cases hcase : eligibleApplications db eid with
  | nil =>
    have hemp : (eligibleApplications db eid).isEmpty = true := by
      rw [hcase]
      rfl
    have h := finishEvent_empty_eq noFail db eid t ev rfl hev hst rfl hemp
    rw [h]
    have h0 : eventTxs (setEventFinishedOnly db eid) eid = [] := hnotx
    refine ⟨rfl, ?_⟩
    show eventTxSum (setEventFinishedOnly db eid) eid = (([] : List ApplicationRow).length : ℚ) * eventSalary ev
    unfold eventTxSum
    rw [h0]
    simp
  | cons x xs =>
    have hne : eligibleApplications db eid ≠ [] := by
      rw [hcase]
      simp
    obtain ⟨db2, hfe, post⟩ :=
      finishEvent_noFail_spec db eid t ev hwfW hwfA hev hst hne
    rw [hfe]
    obtain ⟨newTxs, htxeq, hlen, hfields, hcount, honto⟩ := post.txs
    refine ⟨rfl, ?_⟩
    have h1 : eventTxs (setEventFinishedStamped db2 eid t) eid = newTxs := by
      show db2.wallet_transactions.filter
        (fun tx => tx.transaction_event_id == some eid) = newTxs
      rw [htxeq, List.filter_append]
      have hold : db.wallet_transactions.filter
          (fun tx => tx.transaction_event_id == some eid) = [] := hnotx
      rw [hold, List.nil_append, List.filter_eq_self]
      intro tx htx
      simp [(hfields tx htx).1]
    unfold eventTxSum
    rw [h1]
    have hall : ∀ x ∈ newTxs.map WalletTransactionRow.transaction_amount,
        x = eventSalary ev := by
      intro x hx
      rcases List.mem_map.mp hx with ⟨tx, htx, rfl⟩
      exact (hfields tx htx).2.2.1
    rw [List.sum_eq_card_nsmul _ _ hall, List.length_map, hlen, nsmul_eq_mul,
      hcase]

/-- Claim C5 witness: the theorem applied to the concrete store with two
eligible applications and salary 500000. -/
theorem finish_ledger_sum_eq_count_times_salary_witness :
    responseHttpStatus (finishEvent noFail sampleDB 1 77).1 = 200 ∧
    eventTxSum (finishEvent noFail sampleDB 1 77).2 1 =
      ((eligibleApplications sampleDB 1).length : ℚ) * eventSalary sampleEvent :=
  finish_ledger_sum_eq_count_times_salary sampleDB 1 77 sampleEvent
    (by decide) (by decide) rfl (by decide) rfl

/-- Claim C6: for every application of the event without a clock-out
proof, a finish call with no store failures creates no wallet_transaction
for that worker, leaves that worker wallet (hence its balance) exactly as
it was, and leaves that application row unchanged. -/
theorem finish_leaves_non_clocked_out_untouched (db : DB) (eid t : Nat)
    (ev : EventRow) (a : ApplicationRow)
    (hwfW : WFWallets db) (hwfA : WFApplications db)
    (hev : findEvent db eid = some ev) (hst : ev.event_status ≠ "finished")
    (ha : a ∈ db.applications) (haev : a.event_id = eid)
    (hnoqr : a.clock_out_qr_data = none) :
    findApp (finishEvent noFail db eid t).2 a.application_id = some a ∧
    findWallet (finishEvent noFail db eid t).2 a.user_id = findWallet db a.user_id ∧
    walletTxsOf (finishEvent noFail db eid t).2 a.user_id = walletTxsOf db a.user_id := by
  have hanel : a ∉ eligibleApplications db eid := by
    intro hmem
    have h2 := eligible_clockout hmem
    rw [hnoqr] at h2
    simp at h2
  have huserne : ∀ b ∈ eligibleApplications db eid, b.user_id ≠ a.user_id := by
    intro b hb he
    have hbev := eligible_event hb
    have hba : b = a := by
      apply List.inj_on_of_nodup_map hwfA.2 (eligible_sub db eid b hb) ha
      show (b.event_id, b.user_id) = (a.event_id, a.user_id)
      rw [hbev, haev, he]
    exact hanel (hba ▸ hb)
  have hidne : a.application_id ∉
      (eligibleApplications db eid).map ApplicationRow.application_id := by
    intro hin
    rcases List.mem_map.mp hin with ⟨b, hb, hbid⟩
    have hba : b = a := List.inj_on_of_nodup_map hwfA.1 (eligible_sub db eid b hb) ha hbid
    exact hanel (hba ▸ hb)
  have husne : a.user_id ∉
      (eligibleApplications db eid).map ApplicationRow.user_id := by
    intro hin
    rcases List.mem_map.mp hin with ⟨b, hb, hbid⟩
    exact huserne b hb hbid
  cases hcase : (eligibleApplications db eid).isEmpty with
  | true =>
    have h := finishEvent_empty_eq noFail db eid t ev rfl hev hst rfl hcase
    rw [h]
    exact ⟨findApp_of_mem hwfA.1 ha, rfl, rfl⟩
  | false =>
    have hne : eligibleApplications db eid ≠ [] := by
      intro hnil
      rw [hnil] at hcase
      simp at hcase
    obtain ⟨db2, hfe, post⟩ :=
      finishEvent_noFail_spec db eid t ev hwfW hwfA hev hst hne
    rw [hfe]
    have hfw : findWallet db2 a.user_id = findWallet db a.user_id :=
      post.wallets_frame a.user_id husne
    refine ⟨?_, ?_, ?_⟩
    · exact ((findApp_ext rfl a.application_id).trans
        (post.apps_frame a.application_id hidne)).trans (findApp_of_mem hwfA.1 ha)
    · exact (findWallet_ext rfl a.user_id).trans hfw
    · unfold walletTxsOf
      rw [show findWallet (setEventFinishedStamped db2 eid t) a.user_id =
        findWallet db a.user_id from (findWallet_ext rfl a.user_id).trans hfw]
      cases hfwdb : findWallet db a.user_id with
      | none => rfl
      | some w =>
        obtain ⟨newTxs, htxeq, hlen, hfields, hcount, honto⟩ := post.txs
        show db2.wallet_transactions.filter (fun tx => tx.wallet_id == w.wallet_id) =
          db.wallet_transactions.filter (fun tx => tx.wallet_id == w.wallet_id)
        rw [htxeq, List.filter_append]
        have hw2 : findWallet db2 a.user_id = some w := hfw.trans hfwdb
        have hnil2 : newTxs.filter (fun tx => tx.wallet_id == w.wallet_id) = [] := by
          rw [List.filter_eq_nil_iff]
          intro tx htx hbeq
          obtain ⟨b, hb, wb, hfwb, heqb⟩ := honto tx htx
          have hid : tx.wallet_id = w.wallet_id := eq_of_beq hbeq
          rw [heqb] at hid
          have hwbw := findWallet_inj post.wf.1 hfwb hw2 hid
          apply huserne b hb
          rw [← findWallet_user hfwb, hwbw, findWallet_user hw2]
        rw [hnil2, List.append_nil]

/-- Claim C6 witness: the theorem applied to the concrete store, singling
out the application of user 101 who never clocked out. -/
theorem finish_leaves_non_clocked_out_untouched_witness :
    findApp (finishEvent noFail sampleDB 1 77).2 sampleApp11.application_id =
      some sampleApp11 ∧
    findWallet (finishEvent noFail sampleDB 1 77).2 sampleApp11.user_id =
      findWallet sampleDB sampleApp11.user_id ∧
    walletTxsOf (finishEvent noFail sampleDB 1 77).2 sampleApp11.user_id =
      walletTxsOf sampleDB sampleApp11.user_id :=
  finish_leaves_non_clocked_out_untouched sampleDB 1 77 sampleEvent sampleApp11
    (by decide) (by decide) rfl (by decide) (by decide) rfl rfl

/-- Claim C7: for every eligible worker without a wallet at credit time,
the finish call (with no store failures) creates the wallet — starting
from a zero balance — and credits it, so afterwards the wallet exists
with balance exactly the event salary. -/
theorem finish_creates_wallet_for_new_worker (db : DB) (eid t : Nat)
    (ev : EventRow) (a : ApplicationRow)
    (hwfW : WFWallets db) (hwfA : WFApplications db)
    (hev : findEvent db eid = some ev) (hst : ev.event_status ≠ "finished")
    (ha : a ∈ eligibleApplications db eid)
    (hnow : findWallet db a.user_id = none) :
    ∃ w, findWallet (finishEvent noFail db eid t).2 a.user_id = some w ∧
      w.wallet_balance = eventSalary ev := by
  have hne : eligibleApplications db eid ≠ [] := List.ne_nil_of_mem ha
  obtain ⟨db2, hfe, post⟩ :=
    finishEvent_noFail_spec db eid t ev hwfW hwfA hev hst hne
  rw [hfe]
  obtain ⟨w, hfw, huser, hbal, _⟩ := post.per_app a ha
  refine ⟨w, (findWallet_ext rfl a.user_id).trans hfw, ?_⟩
  have h0 : userBalance db a.user_id = 0 := by
    unfold userBalance
    rw [hnow]
  rw [hbal, h0, zero_add]

/-- Claim C7 witness: the theorem applied to the concrete store, singling
out eligible user 102 who has no wallet before the call. -/
theorem finish_creates_wallet_for_new_worker_witness :
    ∃ w, findWallet (finishEvent noFail sampleDB 1 77).2 sampleApp12.user_id = some w ∧
      w.wallet_balance = eventSalary sampleEvent :=
  finish_creates_wallet_for_new_worker sampleDB 1 77 sampleEvent sampleApp12
    (by decide) (by decide) rfl (by decide) (by decide) rfl

/-- Claim C8: the per-worker payout amount is the event salary field
coerced with `Number(...) || 0` — every ledger entry appended by a
finish call with no store failures carries exactly that amount, with no
fee, proration or rounding; and when the salary is missing or not
coercible to a number the amount is zero while the call still succeeds
with HTTP 200. -/
theorem finish_salary_coercion_semantics (db : DB) (eid t : Nat)
    (ev : EventRow) (hwfW : WFWallets db) (hwfA : WFApplications db)
    (hev : findEvent db eid = some ev) (hst : ev.event_status ≠ "finished") :
    (∃ ts, (finishEvent noFail db eid t).2.wallet_transactions =
        db.wallet_transactions ++ ts ∧
      ∀ tx ∈ ts, tx.transaction_amount = eventSalary ev) ∧
    ((ev.event_salary = .vMissing ∨ ev.event_salary = .vBadStr) →
      eventSalary ev = 0) ∧
    responseHttpStatus (finishEvent noFail db eid t).1 = 200 := by
  have hzero : (ev.event_salary = .vMissing ∨ ev.event_salary = .vBadStr) →
      eventSalary ev = 0 := by
    rintro (h | h) <;> simp [eventSalary, h, jsNumber, orZero]
  cases hcase : (eligibleApplications db eid).isEmpty with
  | true =>
    have h := finishEvent_empty_eq noFail db eid t ev rfl hev hst rfl hcase
    rw [h]
    refine ⟨⟨[], ?_, ?_⟩, hzero, rfl⟩
    · exact (List.append_nil _).symm
    · intro tx htx
      cases htx
  | false =>
    have hne : eligibleApplications db eid ≠ [] := by
      intro hnil
      rw [hnil] at hcase
      simp at hcase
    obtain ⟨db2, hfe, post⟩ :=
      finishEvent_noFail_spec db eid t ev hwfW hwfA hev hst hne
    rw [hfe]
    obtain ⟨newTxs, htxeq, hlen, hfields, hcount, honto⟩ := post.txs
    refine ⟨⟨newTxs, htxeq, ?_⟩, hzero, rfl⟩
    intro tx htx
    exact (hfields tx htx).2.2.1

/-- Claim C8 witness: the theorem applied to a concrete store whose event
has a missing salary field; the call succeeds and the amount is zero. -/
theorem finish_salary_coercion_semantics_witness :
    (∃ ts, (finishEvent noFail sampleMissingSalaryDB 1 77).2.wallet_transactions =
        sampleMissingSalaryDB.wallet_transactions ++ ts ∧
      ∀ tx ∈ ts, tx.transaction_amount =
        eventSalary { sampleEvent with event_salary := .vMissing }) ∧
    (({ sampleEvent with event_salary := .vMissing }.event_salary = .vMissing ∨
      { sampleEvent with event_salary := .vMissing }.event_salary = .vBadStr) →
      eventSalary { sampleEvent with event_salary := .vMissing } = 0) ∧
    responseHttpStatus (finishEvent noFail sampleMissingSalaryDB 1 77).1 = 200 :=
  finish_salary_coercion_semantics sampleMissingSalaryDB 1 77
    { sampleEvent with event_salary := .vMissing }
    (by decide) (by decide) rfl (by decide)

/-- Claim C9: every wallet_transaction row appended by the payout
workflow — on any path, under any failure oracle — has its
transaction_event_id set to the finished event and its
transaction_wd_id null, so it references exactly one of
{source event, source withdrawal} and the mutual-exclusivity invariant
is preserved by every credit. -/
theorem finish_tx_mutual_exclusivity (fail : StoreOp → Bool) (db : DB)
    (eid t : Nat) :
    ∃ ts, (finishEvent fail db eid t).2.wallet_transactions =
        db.wallet_transactions ++ ts ∧
      ∀ tx ∈ ts, tx.transaction_event_id = some eid ∧
        tx.transaction_wd_id = none ∧
        tx.transaction_event_id.isSome = true ∧
        tx.transaction_wd_id.isNone = true := by
  obtain ⟨ts, hts, hf⟩ := finishEvent_txs_extend fail db eid t
  refine ⟨ts, hts, ?_⟩
  intro tx htx
  obtain ⟨h1, h2, _⟩ := hf tx htx
  refine ⟨h1, h2, ?_, ?_⟩
  · rw [h1]
    rfl
  · rw [h2]
    rfl

/-- Claim C10: the completion timestamp is captured once at the start of
the handler; for a finish call with no store failures and at least one
eligible application, every appended wallet_transaction carries that
same transaction_date, and the event row ends with updated_at equal to
that same timestamp (and status finished). -/
theorem finish_single_timestamp (db : DB) (eid t : Nat) (ev : EventRow)
    (hwfW : WFWallets db) (hwfA : WFApplications db)
    (hev : findEvent db eid = some ev) (hst : ev.event_status ≠ "finished")
    (hne : eligibleApplications db eid ≠ []) :
    ∃ ts ev2, (finishEvent noFail db eid t).2.wallet_transactions =
        db.wallet_transactions ++ ts ∧
      ts ≠ [] ∧
      (∀ tx ∈ ts, tx.transaction_date = t) ∧
      findEvent (finishEvent noFail db eid t).2 eid = some ev2 ∧
      ev2.updated_at = t ∧ ev2.event_status = "finished" := by
  obtain ⟨db2, hfe, post⟩ :=
    finishEvent_noFail_spec db eid t ev hwfW hwfA hev hst hne
  rw [hfe]
  obtain ⟨newTxs, htxeq, hlen, hfields, hcount, honto⟩ := post.txs
  refine ⟨newTxs, { ev with event_status := "finished", updated_at := t },
    htxeq, ?_, ?_, ?_, rfl, rfl⟩
  · intro hnil
    rw [hnil] at hlen
    exact hne (List.length_eq_zero.mp hlen.symm)
  · intro tx htx
    exact (hfields tx htx).2.2.2
  · have h1 : findEvent db2 eid = some ev :=
      (findEvent_ext post.events_eq eid).trans hev
    rw [findEvent_setEventFinishedStamped, h1]
    have hide : (ev.event_id == eid) = true := by
      simp [findEvent_id hev]
    simp only [Option.map_some']
    rw [if_pos hide]

/-- Claim C10 witness: the theorem applied to the concrete store at
timestamp 77. -/
theorem finish_single_timestamp_witness :
    ∃ ts ev2, (finishEvent noFail sampleDB 1 77).2.wallet_transactions =
        sampleDB.wallet_transactions ++ ts ∧
      ts ≠ [] ∧
      (∀ tx ∈ ts, tx.transaction_date = 77) ∧
      findEvent (finishEvent noFail sampleDB 1 77).2 1 = some ev2 ∧
      ev2.updated_at = 77 ∧ ev2.event_status = "finished" :=
  finish_single_timestamp sampleDB 1 77 sampleEvent
    (by decide) (by decide) rfl (by decide) (by decide)
